import Mathlib

/-!
Shallow embedding of the HWP/HWPX text-extraction core of the repository
(src/hwp_parser.py and src/hwp_utils.py), together with theorems settling
the specification claims about it.

Bytes are modelled as `List Nat` (each element an octet value) and decoded
text as `List Nat` of Unicode code points, so that every definition is
executable and every concrete statement decidable.

External collaborators of the code (the zlib inflater, the olefile compound
container, the zipfile archive and the ElementTree XML parser) are modelled
as explicit inputs: a container or archive is the list of its streams or
entries, and the inflater / XML parser are `Option`-valued function
parameters (`none` models the library call raising).  Everything else is
translated from the source.
-/

namespace Jodal

/-- Unicode white space exactly as CPython's `Py_UNICODE_ISSPACE` classifies
it; this is the character class behind Python `str.split()`, `str.strip()`
and `str.isspace()`. -/
def pyIsSpace (c : Nat) : Bool :=
  ([9, 10, 11, 12, 13, 28, 29, 30, 31, 32, 133, 160, 5760,
    8192, 8193, 8194, 8195, 8196, 8197, 8198, 8199, 8200, 8201, 8202,
    8232, 8233, 8239, 8287, 12288] : List Nat).contains c

/-- Python `str.isprintable` for one code point.  Exact on the Latin-1 range
(C0 and C1 controls, NBSP and soft hyphen are the only non-printables
there); code points at and beyond 0x100 are treated as printable unless
they are Unicode white space, which is accurate for every character class
exercised by this development (Hangul, ASCII, the Unicode space and line
separators). -/
def pyIsPrintable (c : Nat) : Bool :=
  if c < 256 then
    if 32 ≤ c ∧ c ≤ 126 then true
    else if 161 ≤ c ∧ c ≠ 173 then true
    else false
  else !(pyIsSpace c)

/-- Line boundaries of Python `str.splitlines` other than the CRLF pair,
which is handled by the splitter itself. -/
def isLineBreak (c : Nat) : Bool :=
  ([10, 11, 12, 13, 28, 29, 30, 133, 8232, 8233] : List Nat).contains c

/-- Worker for `pySplitlines`: Python `str.splitlines()` semantics, CRLF
counting as a single boundary and no empty trailing line. -/
def splitlinesGo (acc : List Nat) : List Nat → List (List Nat)
  | [] => if acc.isEmpty then [] else [acc.reverse]
  | 13 :: 10 :: rest => acc.reverse :: splitlinesGo [] rest
  | 13 :: rest => acc.reverse :: splitlinesGo [] rest
  | c :: rest =>
    if isLineBreak c then acc.reverse :: splitlinesGo [] rest
    else splitlinesGo (c :: acc) rest

/-- Python `str.splitlines()` over code points. -/
def pySplitlines (l : List Nat) : List (List Nat) := splitlinesGo [] l

/-- Worker for `pySplit`: Python `str.split()` with no separator, i.e.
maximal runs of non-white-space characters. -/
def pySplitGo (acc : List Nat) : List Nat → List (List Nat)
  | [] => if acc.isEmpty then [] else [acc.reverse]
  | c :: rest =>
    if pyIsSpace c then
      if acc.isEmpty then pySplitGo [] rest else acc.reverse :: pySplitGo [] rest
    else pySplitGo (c :: acc) rest

/-- Python `str.split()` (no argument) over code points. -/
def pySplit (l : List Nat) : List (List Nat) := pySplitGo [] l

/-- Python `sep.join(parts)`. -/
def joinSep (sep : List Nat) : List (List Nat) → List Nat
  | [] => []
  | [x] => x
  | x :: xs => x ++ sep ++ joinSep sep xs

/-- Python `str.strip()` (no argument) over code points. -/
def pyStrip (l : List Nat) : List Nat :=
  ((l.dropWhile pyIsSpace).reverse.dropWhile pyIsSpace).reverse

/-- Code points of a Lean string literal, for writing expected outputs. -/
def strCodes (s : String) : List Nat := s.data.map Char.toNat

/-- Fuelled worker for `utf16leDecodeIgnore`; fuel keeps the recursion
structural (the illegal-surrogate case resumes two bytes in, on a list that
is not a syntactic subterm) so concrete runs reduce inside `decide`.
Every step consumes at least two bytes, so `length + 1` fuel is always
enough. -/
def utf16leDecodeIgnoreF : Nat → List Nat → List Nat
  | 0, _ => []
  | _ + 1, [] => []
  | _ + 1, [_] => []
  | fuel + 1, b0 :: b1 :: rest =>
    let u := b0 + 256 * b1
    if u < 55296 ∨ 57343 < u then u :: utf16leDecodeIgnoreF fuel rest
    else if u ≤ 56319 then
      match rest with
      | b2 :: b3 :: rest2 =>
        let u2 := b2 + 256 * b3
        if 56320 ≤ u2 ∧ u2 ≤ 57343 then
          (65536 + (u - 55296) * 1024 + (u2 - 56320)) :: utf16leDecodeIgnoreF fuel rest2
        else utf16leDecodeIgnoreF fuel (b2 :: b3 :: rest2)
      | _ => []
    else utf16leDecodeIgnoreF fuel rest

/-- Python `bytes.decode("utf-16le", errors="ignore")`: 16-bit units little
endian, surrogate pairs combined; an unpaired surrogate or a truncated
final unit is dropped (the `ignore` error handler skips the offending two
bytes, or the dangling tail at end of input). -/
def utf16leDecodeIgnore (l : List Nat) : List Nat :=
  utf16leDecodeIgnoreF (l.length + 1) l

/-- Fuelled worker for `utf16leDecodeReplace`. -/
def utf16leDecodeReplaceF : Nat → List Nat → List Nat
  | 0, _ => []
  | _ + 1, [] => []
  | _ + 1, [_] => [65533]
  | fuel + 1, b0 :: b1 :: rest =>
    let u := b0 + 256 * b1
    if u < 55296 ∨ 57343 < u then u :: utf16leDecodeReplaceF fuel rest
    else if u ≤ 56319 then
      match rest with
      | b2 :: b3 :: rest2 =>
        let u2 := b2 + 256 * b3
        if 56320 ≤ u2 ∧ u2 ≤ 57343 then
          (65536 + (u - 55296) * 1024 + (u2 - 56320)) :: utf16leDecodeReplaceF fuel rest2
        else 65533 :: utf16leDecodeReplaceF fuel (b2 :: b3 :: rest2)
      | _ => [65533]
    else 65533 :: utf16leDecodeReplaceF fuel rest

/-- Modelled from the spec: the decoder §4.7 asks for, UTF-16 little endian
with a replacement marker (U+FFFD) substituted for each invalid code unit
instead of dropping it (Python `errors="replace"`).  The source never uses
this; it is stated only to compare with `utf16leDecodeIgnore`. -/
def utf16leDecodeReplace (l : List Nat) : List Nat :=
  utf16leDecodeReplaceF (l.length + 1) l

/-- UTF-16LE encoding of a list of BMP code points (two bytes each); used
only to build concrete record payloads in theorem statements. -/
def utf16leEnc : List Nat → List Nat
  | [] => []
  | c :: cs => c % 256 :: c / 256 :: utf16leEnc cs

/-! ## The record walker

`hwp_parser._parse_body_records` and `hwp_utils._parse_hwp_records` walk
the same record format and differ in exactly two places: the stop
condition (`size <= 0 or ...` in hwp_utils versus `... or size < 0`, i.e.
never, in hwp_parser — the `stopZero` flag below) and what they do with a
record once read.  The header read, the 12-bit size field, the 0xFFF
extended-size escape and the bounds checks are shared verbatim. -/

/-- Little-endian 32-bit read of the first four bytes, `struct.unpack("<I", ...)`.
Callers guard the length, as the source does before slicing. -/
def le4 : List Nat → Nat
  | a :: b :: c :: d :: _ => a + 256 * b + 65536 * c + 16777216 * d
  | _ => 0

/-- Little-endian 4-byte encoding of a 32-bit value, for building record
headers in theorem statements. -/
def le4enc (n : Nat) : List Nat :=
  [n % 256, n / 256 % 256, n / 65536 % 256, n / 16777216 % 256]

/-- Tail of a record read, shared by both walkers: stop on a size that
overruns the remaining buffer, and (for hwp_utils, `stopZero = true`) on a
resolved size of zero; otherwise produce the tag, the payload slice and
the rest of the buffer. -/
def readRecordCont (stopZero : Bool) (tagId size : Nat) (rest2 : List Nat) :
    Option (Nat × List Nat × List Nat) :=
  if (stopZero = true ∧ size = 0) ∨ rest2.length < size then none
  else some (tagId, rest2.take size, rest2.drop size)

/-- One step of the record walker: the 4-byte little-endian header with
`tag = header & 0x3FF` and `size = (header >> 20) & 0xFFF`, the 0xFFF
extended-size escape reading the true size from the next 4 bytes, and the
bounds checks of the source; `none` means the loop breaks. -/
def readRecord (stopZero : Bool) (data : List Nat) :
    Option (Nat × List Nat × List Nat) :=
  if data.length < 4 then none
  else
    let header := le4 data
    let tagId := header % 1024
    let size0 := header / 1048576 % 4096
    let rest := data.drop 4
    if size0 = 4095 then
      if rest.length < 4 then none
      else readRecordCont stopZero tagId (le4 rest) (rest.drop 4)
    else readRecordCont stopZero tagId size0 rest

/-- Fuelled record walk; `walkRecords` supplies enough fuel.  Fuel keeps the
recursion structural so concrete runs reduce inside `decide`. -/
def walkRecordsF : Nat → Bool → List Nat → List (Nat × List Nat)
  | 0, _, _ => []
  | fuel + 1, stopZero, data =>
    match readRecord stopZero data with
    | none => []
    | some (t, p, rest) => (t, p) :: walkRecordsF fuel stopZero rest

/-- The emitted (tag, payload) sequence of the record walker over a buffer. -/
def walkRecords (stopZero : Bool) (data : List Nat) : List (Nat × List Nat) :=
  walkRecordsF (data.length + 1) stopZero data

/-! ## What each source file does with a record -/

/-- The per-character pass of `hwp_utils._parse_hwp_records` over decoded
text: keep printable or white-space characters, mapping CR and VT to a
newline. -/
def recordFilter (cs : List Nat) : List Nat :=
  (cs.filter fun c => pyIsPrintable c || pyIsSpace c).map
    fun c => if c = 13 ∨ c = 11 then 10 else c

/-- The record body of `hwp_utils._parse_hwp_records`: tags 66, 67, 68, 80
(the source's set literal also repeats 80 as `0x50`) are decoded UTF-16LE
with errors ignored (the `utf-8` retry in the source is unreachable since
an ignoring decode never raises), filtered, and kept when the filtered
text has a non-empty strip. -/
def utilsRecordText (r : Nat × List Nat) : Option (List Nat) :=
  if r.1 = 66 ∨ r.1 = 67 ∨ r.1 = 68 ∨ r.1 = 80 then
    let filtered := recordFilter (utf16leDecodeIgnore r.2)
    if filtered ≠ [] ∧ pyStrip filtered ≠ [] then some filtered else none
  else none

/-- `hwp_utils._parse_hwp_records`: walk the records with the `size <= 0`
stop, keep the texts of `utilsRecordText`, join with newlines, strip. -/
def parse_hwp_records (data : List Nat) : List Nat :=
  pyStrip (joinSep [10] ((walkRecords true data).filterMap utilsRecordText))

/-- `hwp_parser._strip_control_chars`: keep newline and tab, delete NUL,
replace other controls by a space. -/
def strip_control_chars (cs : List Nat) : List Nat :=
  cs.filterMap fun c =>
    if c = 10 ∨ c = 9 then some c
    else if c = 0 then none
    else if c < 32 then some 32
    else some c

/-- `hwp_parser._clean_text`: strip control characters, split into lines,
collapse intra-line white space, drop lines that become empty, rejoin with
newlines and strip the whole. -/
def clean_text (cs : List Nat) : List Nat :=
  let filtered := strip_control_chars cs
  let normalized_lines := (pySplitlines filtered).filterMap fun line =>
    let compacted := joinSep [32] (pySplit line)
    if compacted = [] then none else some compacted
  pyStrip (joinSep [10] normalized_lines)

/-- The record body of `hwp_parser._parse_body_records`: only tag 67
(`HWPTAG_PARA_TEXT`) is decoded and cleaned, and kept when non-empty. -/
def bodyRecordText (r : Nat × List Nat) : Option (List Nat) :=
  if r.1 = 67 then
    let cleaned := clean_text (utf16leDecodeIgnore r.2)
    if cleaned = [] then none else some cleaned
  else none

/-- `hwp_parser._parse_body_records`: walk the records (no `size = 0` stop;
the source's `size < 0` test is vacuous on the unsigned field), keep the
cleaned texts of tag-67 records, join with newlines. -/
def parse_body_records (data : List Nat) : List Nat :=
  joinSep [10] ((walkRecords false data).filterMap bodyRecordText)

/-! ## The compound container and the two OLE extraction paths -/

/-- An opened compound container: the list of its streams in directory
order, each a hierarchical path with its raw bytes.  This is the view
`olefile` (an external library) exposes through `listdir` and
`openstream`. -/
structure OleContainer where
  streams : List (List String × List Nat)
deriving DecidableEq

/-- Stream paths in directory-listing order, as `ole.listdir()` returns
them. -/
def listdir (c : OleContainer) : List (List String) := c.streams.map Prod.fst

/-- Path lookup among the streams, as `ole.openstream` resolves a path;
`none` models the library raising for an absent stream. -/
def lookupPath : List (List String × List Nat) → List String → Option (List Nat)
  | [], _ => none
  | s :: rest, key => if s.1 = key then some s.2 else lookupPath rest key

/-- Split a slash-separated stream name into path segments, as `olefile`
does with a string argument to `openstream`. -/
def splitSlashAux (acc : List Char) : List Char → List String
  | [] => [String.mk acc.reverse]
  | c :: rest =>
    if c = '/' then String.mk acc.reverse :: splitSlashAux [] rest
    else splitSlashAux (c :: acc) rest

/-- Stream name to path segments. -/
def splitSlash (s : String) : List String := splitSlashAux [] s.data

/-- `ole.openstream(name).read()` with a slash-separated name. -/
def openstreamStr (c : OleContainer) (name : String) : Option (List Nat) :=
  lookupPath c.streams (splitSlash name)

/-- `hwp_parser._detect_body_compressed`: bit 0 of byte 36 of a FileHeader
of at least 37 bytes. -/
def detect_body_compressed (file_header : List Nat) : Bool :=
  decide (37 ≤ file_header.length) && decide (file_header.getD 36 0 % 2 = 1)

/-- `hwp_parser._maybe_decompress_raw` with the raw-deflate inflater
(`zlib.decompress(data, -MAX_WBITS)`, an external library call) passed in
as a function; `none` models `zlib.error`, on which the bytes are returned
unchanged. -/
def maybe_decompress_raw (inflateRaw : List Nat → Option (List Nat))
    (data : List Nat) : List Nat :=
  (inflateRaw data).getD data

/-- Python `int()` on a string: surrounding white space stripped, an
optional sign, then decimal digits (digit-grouping underscores and
non-ASCII digits are not modelled; no caller produces them). -/
def digitsToNat (cs : List Char) : Option Nat :=
  if cs ≠ [] ∧ cs.all Char.isDigit then
    some (cs.foldl (fun a c => a * 10 + (c.toNat - 48)) 0)
  else none

/-- Strip Python white space around a character list. -/
def pyTrimChars (cs : List Char) : List Char :=
  ((cs.dropWhile fun c => pyIsSpace c.toNat).reverse.dropWhile
    fun c => pyIsSpace c.toNat).reverse

/-- Python `int(s)`, `none` modelling `ValueError`. -/
def pyInt (s : String) : Option Int :=
  match pyTrimChars s.data with
  | '-' :: rest => (digitsToNat rest).map fun n => -(n : Int)
  | '+' :: rest => (digitsToNat rest).map fun n => (n : Int)
  | cs => (digitsToNat cs).map fun n => (n : Int)

/-- Replace every occurrence of `pat` (fuelled; each step consumes at least
one character, so `length + 1` fuel is always enough). -/
def replaceAllF (pat repl : List Char) : Nat → List Char → List Char
  | 0, l => l
  | _ + 1, [] => []
  | fuel + 1, c :: rest =>
    if pat.isPrefixOf (c :: rest) then
      repl ++ replaceAllF pat repl fuel (rest.drop (pat.length - 1))
    else c :: replaceAllF pat repl fuel rest

/-- Python `s.replace(pat, repl)` (all occurrences, left to right). -/
def pyReplace (s pat repl : String) : String :=
  String.mk (replaceAllF pat.data repl.data (s.data.length + 1) s.data)

/-- Does `pre` start the string, Python `str.startswith`. -/
def startsWithStr (s pre : String) : Bool := pre.data.isPrefixOf s.data

/-- The numeric suffixes collected by `hwp_parser._list_body_sections`:
two-segment `BodyText/SectionN` paths whose suffix parses with `int()`,
others skipped. -/
def body_section_ids (entries : List (List String)) : List Int :=
  entries.filterMap fun entry =>
    match entry with
    | [a, b] =>
      if a = "BodyText" ∧ startsWithStr b "Section" then
        pyInt (pyReplace b "Section" "")
      else none
    | _ => none

/-- Rebuild the slash-separated stream name from a section number. -/
def sectionName (idx : Int) : String := "BodyText/Section" ++ toString idx

/-- `hwp_parser._list_body_sections`: collect the numeric section ids, sort
ascending (Python `list.sort` is a stable ascending sort, modelled by
insertion sort) and rebuild the stream names. -/
def list_body_sections (entries : List (List String)) : List String :=
  ((body_section_ids entries).insertionSort (· ≤ ·)).map sectionName

/-- The per-section body of the loop in `hwp_parser.extract_text_from_hwp`:
read the stream (a missing stream is skipped), decompress iff the flag is
set, parse the records, and tag a non-empty result with a `[stream name]`
line. -/
def hwpSectionPart (inflateRaw : List Nat → Option (List Nat))
    (c : OleContainer) (compressed : Bool) (stream_name : String) :
    Option (List Nat) :=
  match openstreamStr c stream_name with
  | none => none
  | some raw_stream =>
    let stream_data :=
      if compressed then maybe_decompress_raw inflateRaw raw_stream else raw_stream
    let parsed := parse_body_records stream_data
    if parsed = [] then none
    else some (strCodes ("[" ++ stream_name ++ "]") ++ 10 :: parsed)

/-- `hwp_parser.extract_text_from_hwp` over an opened container: read the
FileHeader (missing stream modelled by an absent path), derive the
compression flag, enumerate the sections, collect the per-section parts
(`hwpSectionPart`), join with blank lines and clean. -/
def extract_text_from_hwp (inflateRaw : List Nat → Option (List Nat))
    (c : OleContainer) : List Nat :=
  let header_bytes := (openstreamStr c "FileHeader").getD []
  let compressed := detect_body_compressed header_bytes
  let section_streams := list_body_sections (listdir c)
  clean_text (joinSep [10, 10]
    (section_streams.filterMap (hwpSectionPart inflateRaw c compressed)))

/-- `hwp_utils._iter_candidate_payloads` with the two inflaters
(`zlib.decompress(raw, -MAX_WBITS)` and `zlib.decompress(raw)`, external
library calls) passed in as functions; `none` models the call raising, on
which nothing is yielded.  The source yields the raw bytes first. -/
def iter_candidate_payloads (inflateRaw inflateZlib : List Nat → Option (List Nat))
    (raw : List Nat) : List (List Nat) :=
  raw :: ((inflateRaw raw).toList ++ (inflateZlib raw).toList)

/-- Modelled from the spec (§4.2 and the claim): candidates attempted in
the order raw deflate, zlib-wrapped deflate, bytes unchanged.  Stated only
to compare with `iter_candidate_payloads`. -/
def iter_candidate_payloads_claimed (inflateRaw inflateZlib : List Nat → Option (List Nat))
    (raw : List Nat) : List (List Nat) :=
  (inflateRaw raw).toList ++ (inflateZlib raw).toList ++ [raw]

/-- The inner loop of `hwp_utils.extract_text_from_hwp_ole` over one
BodyText stream: parse each candidate payload and keep the first
non-empty parse. -/
def oleStreamText (inflateRaw inflateZlib : List Nat → Option (List Nat))
    (raw : List Nat) : Option (List Nat) :=
  ((iter_candidate_payloads inflateRaw inflateZlib raw).map parse_hwp_records).find?
    fun t => !t.isEmpty

/-- The per-path body of the loop in `hwp_utils.extract_text_from_hwp_ole`:
skip paths not under `BodyText`, read the stream (failures skipped), and
take the first candidate payload that parses to non-empty text. -/
def oleBodyText (inflateRaw inflateZlib : List Nat → Option (List Nat))
    (c : OleContainer) (path : List String) : Option (List Nat) :=
  match path with
  | [] => none
  | p0 :: _ =>
    if p0 = "BodyText" then
      match lookupPath c.streams path with
      | none => none
      | some raw => oleStreamText inflateRaw inflateZlib raw
    else none

/-- `hwp_utils.extract_text_from_hwp_ole`: every stream whose first path
segment is `BodyText`, in directory-listing order, contributes via
`oleBodyText`; the pieces are joined with newlines and stripped, an empty
result reported as a failure status. -/
def extract_text_from_hwp_ole (inflateRaw inflateZlib : List Nat → Option (List Nat))
    (c : OleContainer) : Option (List Nat) × String :=
  let texts := (listdir c).filterMap (oleBodyText inflateRaw inflateZlib c)
  let merged := pyStrip (joinSep [10] texts)
  if merged = [] then (none, "OLE 추출 실패") else (some merged, "OK[OLE]")

/-! ## The two HWPX (ZIP archive of XML) paths -/

/-- Lower-case a name, Python `str.lower` (ASCII case, which is what the
archive entry names use). -/
def strLower (s : String) : List Char := s.data.map Char.toLower

/-- Does `suf` end the character list, Python `str.endswith`. -/
def endsWithL (l : List Char) (suf : String) : Bool := suf.data.isSuffixOf l

/-- `hwp_parser.extract_text_from_hwpx` over an opened archive (the list of
entry names and bytes `zipfile` exposes): for every entry named `*.xml`,
`parseXml` models `ElementTree.fromstring` composed with the join of
`itertext()` — `none` is a `ParseError`, on which the entry is skipped;
the chunks are joined with newlines and cleaned. -/
def hwpxChunk (parseXml : List Nat → Option (List Nat))
    (en : String × List Nat) : Option (List Nat) :=
  if endsWithL en.1.data ".xml" then parseXml en.2 else none

/-- See `hwpxChunk`: the per-entry body of `extract_text_from_hwpx`. -/
def extract_text_from_hwpx (parseXml : List Nat → Option (List Nat))
    (archive : List (String × List Nat)) : List Nat :=
  clean_text (joinSep [10] (archive.filterMap (hwpxChunk parseXml)))

/-- Strict UTF-8 decoding, Python `bytes.decode("utf-8")`: rejects
continuation-byte errors, overlong forms, surrogates and values past
U+10FFFF; `none` models `UnicodeDecodeError`. -/
def utf8Cont (b : Nat) : Bool := decide (128 ≤ b) && decide (b < 192)

/-- Strict UTF-8 decode (see `utf8Cont`). -/
def utf8Decode : List Nat → Option (List Nat)
  | [] => some []
  | b :: rest =>
    if b < 128 then (utf8Decode rest).map (b :: ·)
    else if b < 194 then none
    else if b < 224 then
      match rest with
      | b1 :: r =>
        if utf8Cont b1 then
          (utf8Decode r).map (((b - 192) * 64 + (b1 - 128)) :: ·)
        else none
      | [] => none
    else if b < 240 then
      match rest with
      | b1 :: b2 :: r =>
        let lo1 := if b = 224 then 160 else 128
        let hi1 := if b = 237 then 159 else 191
        if decide (lo1 ≤ b1) && decide (b1 ≤ hi1) && utf8Cont b2 then
          (utf8Decode r).map (((b - 224) * 4096 + (b1 - 128) * 64 + (b2 - 128)) :: ·)
        else none
      | _ => none
    else if b < 245 then
      match rest with
      | b1 :: b2 :: b3 :: r =>
        let lo1 := if b = 240 then 144 else 128
        let hi1 := if b = 244 then 143 else 191
        if decide (lo1 ≤ b1) && decide (b1 ≤ hi1) && utf8Cont b2 && utf8Cont b3 then
          (utf8Decode r).map
            (((b - 240) * 262144 + (b1 - 128) * 4096 + (b2 - 128) * 64 + (b3 - 128)) :: ·)
        else none
      | _ => none
    else none

/-- The decode chain of `hwp_utils.extract_text_from_hwpx_bytes`: strict
UTF-8 first; the later attempts (utf-16le, cp949, euc-kr, then utf-8 with
errors ignored) depend on external codec tables and are supplied as the
total `fallback` function.  No theorem below exercises the fallback. -/
def hwpxEntryDecode (fallback : List Nat → List Nat) (raw : List Nat) : List Nat :=
  match utf8Decode raw with
  | some t => t
  | none => fallback raw

/-- Scan to the character after the next `>`, for the tag regex. -/
def tagEnd : List Nat → Option (List Nat)
  | [] => none
  | c :: rest => if c = 62 then some rest else tagEnd rest

/-- One attempted match of the regex `<[^>]+>` just after a `<`: at least
one non-`>` character and then a `>`; returns what follows the match. -/
def splitTag : List Nat → Option (List Nat)
  | [] => none
  | c :: rest => if c = 62 then none else tagEnd rest

/-- Fuelled worker for `stripTags` (each step consumes at least one
character, so `length + 1` fuel is always enough). -/
def stripTagsF : Nat → List Nat → List Nat
  | 0, l => l
  | _ + 1, [] => []
  | fuel + 1, c :: rest =>
    if c = 60 then
      match splitTag rest with
      | some rest2 => 32 :: stripTagsF fuel rest2
      | none => 60 :: stripTagsF fuel rest
    else c :: stripTagsF fuel rest

/-- Python `re.sub(r"<[^>]+>", " ", s)`: replace every (leftmost,
non-overlapping) tag-shaped run by one space. -/
def stripTags (l : List Nat) : List Nat := stripTagsF (l.length + 1) l

/-- Python `re.sub(r"\s+", " ", s)`: collapse every maximal white-space run
to a single space (the flag tracks whether the previous character was part
of a run). -/
def collapseWsGo (prevSpace : Bool) : List Nat → List Nat
  | [] => []
  | c :: rest =>
    if pyIsSpace c then
      if prevSpace then collapseWsGo true rest else 32 :: collapseWsGo true rest
    else c :: collapseWsGo false rest

/-- `hwp_utils.extract_text_from_hwpx_bytes` over an opened archive: every
entry whose lower-cased name ends in `.xml` is decoded (see
`hwpxEntryDecode`), its tag-shaped runs replaced by spaces, white space
collapsed and stripped; non-empty results are joined with newlines.  No
XML parsing happens on this path. -/
def hwpxBytesChunk (fallback : List Nat → List Nat)
    (en : String × List Nat) : Option (List Nat) :=
  if endsWithL (strLower en.1) ".xml" then
    let xml := hwpxEntryDecode fallback en.2
    let cleaned := pyStrip (collapseWsGo false (stripTags xml))
    if cleaned = [] then none else some cleaned
  else none

/-- See `hwpxBytesChunk`: the per-entry body of
`extract_text_from_hwpx_bytes`. -/
def extract_text_from_hwpx_bytes (fallback : List Nat → List Nat)
    (archive : List (String × List Nat)) : Option (List Nat) × String :=
  let texts := archive.filterMap (hwpxBytesChunk fallback)
  if texts = [] then (none, "HWPX 추출 결과 비어있음")
  else (some (joinSep [10] texts), "OK[HWPX]")

/-! ## The top-level entry point `hwp_parser.convert_to_text` -/

/-- The failures `convert_to_text` can surface: the two external openers
raising on a buffer that is not of their format, and the explicit
`ValueError` for an empty extraction result. -/
inductive ConvertError where
  | oleOpenFailed : ConvertError
  | zipOpenFailed : ConvertError
  | emptyResult : ConvertError
deriving DecidableEq

/-- One input to `convert_to_text`: the raw bytes and optional filename
(used for dispatch), the results of the two external openers on those
bytes (`none` models the opener raising), and the output of the external
table-extraction helper (`hwp_parser._extract_tables_markdown_from_hwp_bytes`,
a subprocess wrapper that returns an empty string whenever the external
tool is missing or fails). -/
structure ConvertInput where
  data : List Nat
  filename : Option String
  oleOpen : Option OleContainer
  zipOpen : Option (List (String × List Nat))
  tablesMd : List Nat

/-- The dispatch rule of `convert_to_text`: lower-cased filename ending in
`hwpx`, or the bytes starting with the ZIP signature `PK`. -/
def convertIsHwpx (inp : ConvertInput) : Bool :=
  endsWithL (strLower (inp.filename.getD "")) "hwpx" ||
    decide (inp.data.take 2 = [80, 75])

/-- `hwp_parser.convert_to_text`: dispatch on `convertIsHwpx`; extract with
the matching path; on the HWP path, when table extraction is enabled and
the external helper returned something, append it behind a divider; raise
`ValueError` iff the resulting text is empty. -/
def convert_to_text (inflateRaw parseXml : List Nat → Option (List Nat))
    (inp : ConvertInput) (include_tables : Bool) :
    Except ConvertError (List Nat × String) :=
  if convertIsHwpx inp then
    match inp.zipOpen with
    | none => .error .zipOpenFailed
    | some archive =>
      let text := extract_text_from_hwpx parseXml archive
      if text = [] then .error .emptyResult else .ok (text, "HWPX")
  else
    match inp.oleOpen with
    | none => .error .oleOpenFailed
    | some c =>
      let text := extract_text_from_hwp inflateRaw c
      let text2 :=
        if include_tables && !inp.tablesMd.isEmpty then
          pyStrip (text ++ (if text = [] then [] else strCodes "\n\n---\n\n") ++ inp.tablesMd)
        else text
      if text2 = [] then .error .emptyResult else .ok (text2, "HWP")

/-- The text `convert_to_text` ends up testing for emptiness, by branch;
stated separately so theorems can speak about it. -/
def convertFinalText (inflateRaw parseXml : List Nat → Option (List Nat))
    (inp : ConvertInput) (include_tables : Bool) : List Nat :=
  if convertIsHwpx inp then
    extract_text_from_hwpx parseXml (inp.zipOpen.getD [])
  else
    let text := extract_text_from_hwp inflateRaw (inp.oleOpen.getD ⟨[]⟩)
    if include_tables && !inp.tablesMd.isEmpty then
      pyStrip (text ++ (if text = [] then [] else strCodes "\n\n---\n\n") ++ inp.tablesMd)
    else text

/-- Whether the branch `convert_to_text` dispatches to can open its
container or archive at all. -/
def convertOpens (inp : ConvertInput) : Bool :=
  if convertIsHwpx inp then inp.zipOpen.isSome else inp.oleOpen.isSome

/-! ## Record encodings, for stating theorems about the walker -/

/-- A record header word: tag in the low 10 bits, level in the next 10,
size in the 12 bits from bit 20, encoded little endian. -/
def recHeader (tag lvl size : Nat) : List Nat :=
  le4enc (tag + 1024 * lvl + 1048576 * size)

/-- A plain record: header with the payload length in the size field
(meaningful for payloads shorter than the 0xFFF sentinel), then the
payload. -/
def encRecord (tag lvl : Nat) (payload : List Nat) : List Nat :=
  recHeader tag lvl payload.length ++ payload

/-- An extended record: header with the 0xFFF sentinel in the size field,
then the true size as 4 little-endian bytes, then the payload. -/
def encExtRecord (tag lvl : Nat) (payload : List Nat) : List Nat :=
  recHeader tag lvl 4095 ++ le4enc payload.length ++ payload

/-- A buffer of consecutive plain records. -/
def encRecords : List (Nat × Nat × List Nat) → List Nat
  | [] => []
  | r :: rs => encRecord r.1 r.2.1 r.2.2 ++ encRecords rs

/-- What the walker emits for an encoded record. -/
def recOut (r : Nat × Nat × List Nat) : Nat × List Nat := (r.1, r.2.2)

/-- A well-formed plain record: fields in range and a non-empty payload
(so that both walkers, including the one that stops on size zero,
traverse it). -/
def wfRec (r : Nat × Nat × List Nat) : Prop :=
  r.1 < 1024 ∧ r.2.1 < 1024 ∧ r.2.2.length < 4095 ∧ r.2.2 ≠ []

instance : DecidablePred wfRec := fun r => by unfold wfRec; infer_instance

/-! ## Walker lemmas -/

theorem take_length_append (l r : List α) : (l ++ r).take l.length = l := by
  induction l with
  | nil => rfl
  | cons a l ih => simp [ih]

theorem drop_length_append (l r : List α) : (l ++ r).drop l.length = r := by
  induction l with
  | nil => rfl
  | cons a l ih => simp [ih]

theorem le4_le4enc_append (n : Nat) (rest : List Nat) (h : n < 4294967296) :
    le4 (le4enc n ++ rest) = n := by
  simp only [le4enc, List.cons_append, List.nil_append, le4]
  omega

theorem drop4_le4enc_append (n : Nat) (rest : List Nat) :
    (le4enc n ++ rest).drop 4 = rest := rfl

theorem length_le4enc_append (n : Nat) (rest : List Nat) :
    (le4enc n ++ rest).length = 4 + rest.length := by
  simp [le4enc]
  omega

/-- `readRecord` on a buffer that starts with an explicit 4-byte header. -/
theorem readRecord_le4enc (sz : Bool) (h : Nat) (body : List Nat)
    (hh : h < 4294967296) :
    readRecord sz (le4enc h ++ body) =
      if h / 1048576 % 4096 = 4095 then
        if body.length < 4 then none
        else readRecordCont sz (h % 1024) (le4 body) (body.drop 4)
      else readRecordCont sz (h % 1024) (h / 1048576 % 4096) body := by
  simp only [readRecord]
  rw [length_le4enc_append, if_neg (by omega), le4_le4enc_append _ _ hh,
    drop4_le4enc_append]

theorem readRecord_encRecord (sz : Bool) (tag lvl : Nat) (payload rest : List Nat)
    (ht : tag < 1024) (hl : lvl < 1024) (hp : payload.length < 4095) :
    readRecord sz (encRecord tag lvl payload ++ rest) =
      if sz = true ∧ payload = [] then none else some (tag, payload, rest) := by
  have e1 : encRecord tag lvl payload ++ rest
      = le4enc (tag + 1024 * lvl + 1048576 * payload.length) ++ (payload ++ rest) := by
    simp [encRecord, recHeader]
  rw [e1, readRecord_le4enc sz _ _ (by omega), if_neg (by omega)]
  have h1 : (tag + 1024 * lvl + 1048576 * payload.length) % 1024 = tag := by omega
  have h2 : (tag + 1024 * lvl + 1048576 * payload.length) / 1048576 % 4096
      = payload.length := by omega
  rw [h1, h2]
  unfold readRecordCont
  by_cases hc : sz = true ∧ payload = []
  · rw [if_pos (Or.inl ⟨hc.1, by simp [hc.2]⟩), if_pos hc]
  · rw [if_neg, if_neg hc, take_length_append, drop_length_append]
    rintro (⟨hsz, hzero⟩ | hov)
    · exact hc ⟨hsz, List.length_eq_zero.mp hzero⟩
    · simp only [List.length_append] at hov
      omega

theorem readRecord_encExtRecord (sz : Bool) (tag lvl : Nat) (payload rest : List Nat)
    (ht : tag < 1024) (hl : lvl < 1024) (hp : payload.length < 4294967296) :
    readRecord sz (encExtRecord tag lvl payload ++ rest) =
      if sz = true ∧ payload = [] then none else some (tag, payload, rest) := by
  have e1 : encExtRecord tag lvl payload ++ rest
      = le4enc (tag + 1024 * lvl + 1048576 * 4095)
          ++ (le4enc payload.length ++ (payload ++ rest)) := by
    simp [encExtRecord, recHeader]
  rw [e1, readRecord_le4enc sz _ _ (by omega), if_pos (by omega),
    length_le4enc_append, if_neg (by omega),
    le4_le4enc_append _ _ hp, drop4_le4enc_append]
  have h1 : (tag + 1024 * lvl + 1048576 * 4095) % 1024 = tag := by omega
  rw [h1]
  unfold readRecordCont
  by_cases hc : sz = true ∧ payload = []
  · rw [if_pos (Or.inl ⟨hc.1, by simp [hc.2]⟩), if_pos hc]
  · rw [if_neg, if_neg hc, take_length_append, drop_length_append]
    rintro (⟨hsz, hzero⟩ | hov)
    · exact hc ⟨hsz, List.length_eq_zero.mp hzero⟩
    · simp only [List.length_append] at hov
      omega

/-- A declared plain size pointing past the end of the buffer stops the
walk. -/
theorem readRecord_truncated (sz : Bool) (tag lvl s : Nat) (short : List Nat)
    (ht : tag < 1024) (hl : lvl < 1024) (hs : s < 4095)
    (hov : short.length < s) :
    readRecord sz (recHeader tag lvl s ++ short) = none := by
  rw [recHeader, readRecord_le4enc sz _ _ (by omega), if_neg (by omega)]
  have h2 : (tag + 1024 * lvl + 1048576 * s) / 1048576 % 4096 = s := by omega
  rw [h2]
  unfold readRecordCont
  rw [if_pos (Or.inr hov)]

/-- Fewer than 4 bytes after the 0xFFF sentinel stops the walk. -/
theorem readRecord_extTruncated (sz : Bool) (tag lvl : Nat) (short : List Nat)
    (ht : tag < 1024) (hl : lvl < 1024) (hshort : short.length < 4) :
    readRecord sz (recHeader tag lvl 4095 ++ short) = none := by
  rw [recHeader, readRecord_le4enc sz _ _ (by omega), if_pos (by omega),
    if_pos hshort]

/-- A plain size of zero stops the hwp_utils walker whatever follows. -/
theorem readRecord_zeroSize (tag lvl : Nat) (post : List Nat)
    (ht : tag < 1024) (hl : lvl < 1024) :
    readRecord true (recHeader tag lvl 0 ++ post) = none := by
  rw [recHeader, readRecord_le4enc true _ _ (by omega), if_neg (by omega)]
  have h2 : (tag + 1024 * lvl + 1048576 * 0) / 1048576 % 4096 = 0 := by omega
  rw [h2]
  unfold readRecordCont
  rw [if_pos (Or.inl ⟨rfl, rfl⟩)]

/-- An extended size resolving to zero stops the hwp_utils walker too. -/
theorem readRecord_extZeroSize (tag lvl : Nat) (post : List Nat)
    (ht : tag < 1024) (hl : lvl < 1024) :
    readRecord true (recHeader tag lvl 4095 ++ (le4enc 0 ++ post)) = none := by
  rw [recHeader, readRecord_le4enc true _ _ (by omega), if_pos (by omega),
    length_le4enc_append, if_neg (by omega),
    le4_le4enc_append _ _ (by omega), drop4_le4enc_append]
  unfold readRecordCont
  rw [if_pos (Or.inl ⟨rfl, rfl⟩)]

theorem readRecord_length_lt {sz : Bool} {d : List Nat} {t : Nat} {p r : List Nat}
    (h : readRecord sz d = some (t, p, r)) : r.length < d.length := by
  simp only [readRecord, readRecordCont] at h
  by_cases h4 : d.length < 4
  · rw [if_pos h4] at h
    exact absurd h (by simp)
  · rw [if_neg h4] at h
    split at h
    · split at h
      · exact absurd h (by simp)
      · split at h
        · exact absurd h (by simp)
        · simp only [Option.some.injEq, Prod.mk.injEq] at h
          obtain ⟨-, -, hr⟩ := h
          subst hr
          simp only [List.length_drop]
          omega
    · split at h
      · exact absurd h (by simp)
      · simp only [Option.some.injEq, Prod.mk.injEq] at h
        obtain ⟨-, -, hr⟩ := h
        subst hr
        simp only [List.length_drop]
        omega

theorem walkRecordsF_congr {sz : Bool} :
    ∀ {f1 f2 : Nat} {d : List Nat}, d.length < f1 → d.length < f2 →
      walkRecordsF f1 sz d = walkRecordsF f2 sz d := by
  intro f1
  induction f1 with
  | zero => intro f2 d h1 h2; omega
  | succ n ih =>
    intro f2 d h1 h2
    cases f2 with
    | zero => omega
    | succ m =>
      simp only [walkRecordsF]
      cases hr : readRecord sz d with
      | none => rfl
      | some tpr =>
        obtain ⟨t, p, rest⟩ := tpr
        have hlt := readRecord_length_lt hr
        dsimp only
        rw [ih (show rest.length < n by omega) (show rest.length < m by omega)]

theorem walkRecords_eq_nil {sz : Bool} {d : List Nat}
    (h : readRecord sz d = none) : walkRecords sz d = [] := by
  unfold walkRecords
  simp only [walkRecordsF]
  rw [h]

theorem walkRecords_cons {sz : Bool} {d : List Nat} {t : Nat} {p rest : List Nat}
    (h : readRecord sz d = some (t, p, rest)) :
    walkRecords sz d = (t, p) :: walkRecords sz rest := by
  have hlt := readRecord_length_lt h
  have e1 : walkRecordsF (d.length + 1) sz d
      = (t, p) :: walkRecordsF d.length sz rest := by
    simp only [walkRecordsF]
    rw [h]
  have e2 : walkRecordsF d.length sz rest = walkRecordsF (rest.length + 1) sz rest :=
    walkRecordsF_congr (by omega) (by omega)
  unfold walkRecords
  rw [e1, e2]

theorem walkRecords_nil (sz : Bool) : walkRecords sz [] = [] := rfl

/-- The walker consumes a well-formed record buffer record by record and
then continues into whatever follows. -/
theorem walkRecords_encRecords_append (sz : Bool) (rs : List (Nat × Nat × List Nat))
    (tail : List Nat) (h : ∀ r ∈ rs, wfRec r) :
    walkRecords sz (encRecords rs ++ tail) = rs.map recOut ++ walkRecords sz tail := by
  induction rs with
  | nil => simp [encRecords]
  | cons r rs ih =>
    obtain ⟨h1, h2, h3, h4⟩ := h r (List.mem_cons_self r rs)
    have hr : readRecord sz (encRecord r.1 r.2.1 r.2.2 ++ (encRecords rs ++ tail))
        = some (r.1, r.2.2, encRecords rs ++ tail) := by
      rw [readRecord_encRecord sz _ _ _ _ h1 h2 h3, if_neg]
      rintro ⟨-, hpe⟩
      exact h4 hpe
    have e1 : encRecords (r :: rs) ++ tail
        = encRecord r.1 r.2.1 r.2.2 ++ (encRecords rs ++ tail) := by
      simp [encRecords]
    rw [e1, walkRecords_cons hr, ih fun x hx => h x (List.mem_cons_of_mem _ hx)]
    rfl

/-! ## Strip lemmas -/

theorem dropWhile_head_false {p : α → Bool} :
    ∀ {l : List α} {a : α} {t : List α}, l.dropWhile p = a :: t → p a = false := by
  intro l
  induction l with
  | nil => intro a t h; exact absurd h (by simp)
  | cons b l ih =>
    intro a t h
    cases hb : p b with
    | true =>
      rw [List.dropWhile_cons_of_pos hb] at h
      exact ih h
    | false =>
      rw [List.dropWhile_cons_of_neg (by simp [hb])] at h
      cases h
      exact hb

theorem dropWhile_eq_self_of_head {p : α → Bool} {l : List α} {a : α}
    (h1 : l.head? = some a) (h2 : p a = false) : l.dropWhile p = l := by
  cases l with
  | nil => simp at h1
  | cons b t =>
    simp only [List.head?_cons, Option.some.injEq] at h1
    subst h1
    exact List.dropWhile_cons_of_neg (by simp [h2])

theorem dropWhile_getLast? {p : α → Bool} :
    ∀ {l : List α}, l.dropWhile p ≠ [] → (l.dropWhile p).getLast? = l.getLast? := by
  intro l
  induction l with
  | nil => intro h; exact absurd rfl h
  | cons b l ih =>
    intro h
    cases hb : p b with
    | false => rw [List.dropWhile_cons_of_neg (by simp [hb])]
    | true =>
      rw [List.dropWhile_cons_of_pos hb] at h ⊢
      rw [ih h]
      have hl : l ≠ [] := by
        intro he
        rw [he] at h
        exact h rfl
      cases l with
      | nil => exact absurd rfl hl
      | cons c l2 => rw [List.getLast?_cons_cons]

/-- Python strip is idempotent: the ends of a stripped string are not
white space. -/
theorem pyStrip_idem (l : List Nat) : pyStrip (pyStrip l) = pyStrip l := by
  cases hk : (l.dropWhile pyIsSpace).reverse.dropWhile pyIsSpace with
  | nil =>
    have hr : pyStrip l = [] := by rw [pyStrip, hk]; rfl
    rw [hr]
    rfl
  | cons a t =>
    have hrdef : pyStrip l = (a :: t).reverse := by rw [pyStrip, hk]
    have hmne : l.dropWhile pyIsSpace ≠ [] := by
      intro he
      rw [he] at hk
      simp at hk
    obtain ⟨b, s, hbs⟩ : ∃ b s, l.dropWhile pyIsSpace = b :: s := by
      cases hml : l.dropWhile pyIsSpace with
      | nil => exact absurd hml hmne
      | cons b s => exact ⟨b, s, rfl⟩
    have hpb : pyIsSpace b = false := dropWhile_head_false hbs
    have hhead : (pyStrip l).head? = some b := by
      rw [hrdef, List.head?_reverse, ← hk,
        dropWhile_getLast? (by rw [hk]; simp), List.getLast?_reverse, hbs]
      rfl
    have h1 : (pyStrip l).dropWhile pyIsSpace = pyStrip l :=
      dropWhile_eq_self_of_head hhead hpb
    conv_lhs => rw [pyStrip]
    rw [h1, hrdef, List.reverse_reverse,
      dropWhile_eq_self_of_head (show (a :: t).head? = some a from rfl)
        (dropWhile_head_false hk), ← hrdef]

/-! ## Decoder lemmas -/

theorem utf16leDecodeIgnoreF_congr :
    ∀ {f1 f2 : Nat} {l : List Nat}, l.length < f1 → l.length < f2 →
      utf16leDecodeIgnoreF f1 l = utf16leDecodeIgnoreF f2 l := by
  intro f1
  induction f1 with
  | zero => intro f2 l h1 h2; omega
  | succ n ih =>
    intro f2 l h1 h2
    cases f2 with
    | zero => omega
    | succ m =>
      match l with
      | [] => rfl
      | [x] => rfl
      | b0 :: b1 :: rest =>
        simp only [utf16leDecodeIgnoreF]
        have hr : rest.length < n ∧ rest.length < m := by
          simp only [List.length_cons] at h1 h2
          omega
        split
        · rw [ih hr.1 hr.2]
        · split
          · match rest with
            | [] => rfl
            | [x] => rfl
            | b2 :: b3 :: rest2 =>
              have hr2 : rest2.length < n ∧ rest2.length < m := by
                simp only [List.length_cons] at h1 h2
                omega
              dsimp only
              split
              · rw [ih hr2.1 hr2.2]
              · rw [ih hr.1 hr.2]
          · rw [ih hr.1 hr.2]

/-- Unfolding `utf16leDecodeIgnore` across a leading unit that is not a
surrogate. -/
theorem utf16leDecodeIgnore_unit (b0 b1 : Nat) (rest : List Nat)
    (h : b0 + 256 * b1 < 55296 ∨ 57343 < b0 + 256 * b1) :
    utf16leDecodeIgnore (b0 :: b1 :: rest)
      = (b0 + 256 * b1) :: utf16leDecodeIgnore rest := by
  unfold utf16leDecodeIgnore
  simp only [utf16leDecodeIgnoreF, List.length_cons]
  rw [if_pos h]
  congr 1
  exact utf16leDecodeIgnoreF_congr (by omega) (by omega)

/-- The decode of a buffer of encoded low-BMP code points followed by
anything: the valid units pass through and decoding continues on the
tail. -/
theorem utf16leDecodeIgnore_enc_append (cs : List Nat) (tail : List Nat)
    (h : ∀ c ∈ cs, c < 55296) :
    utf16leDecodeIgnore (utf16leEnc cs ++ tail) = cs ++ utf16leDecodeIgnore tail := by
  induction cs with
  | nil => rfl
  | cons c cs ih =>
    have hc : c < 55296 := h c (List.mem_cons_self c cs)
    have hval : c % 256 + 256 * (c / 256) = c := by omega
    show utf16leDecodeIgnore (c % 256 :: c / 256 :: (utf16leEnc cs ++ tail))
      = c :: (cs ++ utf16leDecodeIgnore tail)
    rw [utf16leDecodeIgnore_unit _ _ _ (by omega), hval,
      ih fun x hx => h x (List.mem_cons_of_mem _ hx)]

/-- An unpaired high surrogate unit before valid units is skipped: the
ignoring decoder drops its two bytes and resumes at the next unit. -/
theorem utf16leDecodeIgnore_highSkip (c : Nat) (cs2 : List Nat)
    (hc : c < 55296) (h2 : ∀ x ∈ cs2, x < 55296) :
    utf16leDecodeIgnore (0 :: 216 :: utf16leEnc (c :: cs2)) = c :: cs2 := by
  have hall : ∀ x ∈ c :: cs2, x < 55296 := by
    intro x hx
    rcases List.mem_cons.mp hx with rfl | hx2
    · exact hc
    · exact h2 x hx2
  have hdec : utf16leDecodeIgnore (utf16leEnc (c :: cs2)) = c :: cs2 := by
    have h0 := utf16leDecodeIgnore_enc_append (c :: cs2) [] hall
    simpa [show utf16leDecodeIgnore ([] : List Nat) = [] from rfl] using h0
  have hdec2 : utf16leDecodeIgnoreF
      ((c % 256 :: c / 256 :: utf16leEnc cs2).length + 1)
      (c % 256 :: c / 256 :: utf16leEnc cs2) = c :: cs2 := hdec
  show utf16leDecodeIgnore (0 :: 216 :: (c % 256 :: c / 256 :: utf16leEnc cs2))
    = c :: cs2
  unfold utf16leDecodeIgnore
  have hflen : (0 :: 216 :: (c % 256 :: c / 256 :: utf16leEnc cs2)).length + 1
      = ((utf16leEnc cs2).length + 4) + 1 := by simp
  rw [hflen]
  generalize hg : (utf16leEnc cs2).length + 4 = f
  simp only [utf16leDecodeIgnoreF]
  rw [if_neg (by omega), if_pos (by omega), if_neg (by omega)]
  refine Eq.trans (utf16leDecodeIgnoreF_congr ?_ ?_) hdec2
  · simp only [List.length_cons]
    omega
  · simp

/-- The walker on a buffer that is exactly one plain record. -/
theorem walkRecords_single (sz : Bool) (tag lvl : Nat) (payload : List Nat)
    (ht : tag < 1024) (hl : lvl < 1024) (hp : payload.length < 4095) :
    walkRecords sz (encRecord tag lvl payload)
      = if sz = true ∧ payload = [] then [] else [(tag, payload)] := by
  have e0 : encRecord tag lvl payload = encRecord tag lvl payload ++ [] :=
    (List.append_nil _).symm
  by_cases hc : sz = true ∧ payload = []
  · rw [if_pos hc, e0,
      walkRecords_eq_nil (by rw [readRecord_encRecord sz _ _ _ _ ht hl hp, if_pos hc])]
  · rw [if_neg hc, e0,
      walkRecords_cons (by rw [readRecord_encRecord sz _ _ _ _ ht hl hp, if_neg hc]),
      walkRecords_nil]

/-- The walker on an exactly consumed record buffer. -/
theorem walkRecords_encRecords (sz : Bool) (rs : List (Nat × Nat × List Nat))
    (h : ∀ r ∈ rs, wfRec r) :
    walkRecords sz (encRecords rs) = rs.map recOut := by
  have e0 : encRecords rs = encRecords rs ++ [] := (List.append_nil _).symm
  rw [e0, walkRecords_encRecords_append sz rs [] h, walkRecords_nil,
    List.append_nil]

/-- What `hwp_parser._parse_body_records` extracts from a buffer holding
exactly one plain record. -/
theorem parse_body_records_single (tag : Nat) (payload : List Nat)
    (ht : tag < 1024) (hp : payload.length < 4095) :
    parse_body_records (encRecord tag 0 payload)
      = if tag = 67 then clean_text (utf16leDecodeIgnore payload) else [] := by
  have hw0 : walkRecords false (encRecord tag 0 payload) = [(tag, payload)] := by
    rw [walkRecords_single false tag 0 payload ht (by omega) hp, if_neg]
    rintro ⟨h, -⟩
    exact Bool.false_ne_true h
  by_cases h67 : tag = 67
  · subst h67
    rw [if_pos rfl]
    by_cases hcl : clean_text (utf16leDecodeIgnore payload) = []
    · have hb : bodyRecordText (67, payload) = none := by
        simp [bodyRecordText, hcl]
      rw [parse_body_records, hw0, List.filterMap_cons_none hb,
        List.filterMap_nil, hcl]
      rfl
    · have hb : bodyRecordText (67, payload)
          = some (clean_text (utf16leDecodeIgnore payload)) := by
        simp [bodyRecordText, hcl]
      rw [parse_body_records, hw0, List.filterMap_cons_some hb,
        List.filterMap_nil]
      rfl
  · rw [if_neg h67]
    have hb : bodyRecordText (tag, payload) = none := by
      simp [bodyRecordText, h67]
    rw [parse_body_records, hw0, List.filterMap_cons_none hb,
      List.filterMap_nil]
    rfl

/-- What `hwp_utils._parse_hwp_records` extracts from a buffer holding
exactly one plain record. -/
theorem parse_hwp_records_single (tag : Nat) (payload : List Nat)
    (ht : tag < 1024) (hp : payload.length < 4095) :
    parse_hwp_records (encRecord tag 0 payload)
      = if tag = 66 ∨ tag = 67 ∨ tag = 68 ∨ tag = 80
        then pyStrip (recordFilter (utf16leDecodeIgnore payload)) else [] := by
  by_cases hpe : payload = []
  · subst hpe
    have hw : walkRecords true (encRecord tag 0 []) = [] := by
      rw [walkRecords_single true tag 0 [] ht (by omega) (by simp),
        if_pos ⟨rfl, rfl⟩]
    rw [parse_hwp_records, hw]
    split <;> rfl
  · have hw : walkRecords true (encRecord tag 0 payload) = [(tag, payload)] := by
      rw [walkRecords_single true tag 0 payload ht (by omega) hp, if_neg]
      rintro ⟨-, h⟩
      exact hpe h
    rw [parse_hwp_records, hw]
    by_cases hset : tag = 66 ∨ tag = 67 ∨ tag = 68 ∨ tag = 80
    · rw [if_pos hset]
      by_cases hstrip : pyStrip (recordFilter (utf16leDecodeIgnore payload)) = []
      · have hu : utilsRecordText (tag, payload) = none := by
          simp only [utilsRecordText, if_pos hset]
          rw [if_neg]
          rintro ⟨-, hb⟩
          exact hb hstrip
        rw [List.filterMap_cons_none hu, List.filterMap_nil, hstrip]
        rfl
      · have hfne : recordFilter (utf16leDecodeIgnore payload) ≠ [] := by
          intro he
          exact hstrip (by rw [he]; rfl)
        have hu : utilsRecordText (tag, payload)
            = some (recordFilter (utf16leDecodeIgnore payload)) := by
          simp only [utilsRecordText, if_pos hset]
          rw [if_pos ⟨hfne, hstrip⟩]
        rw [List.filterMap_cons_some hu, List.filterMap_nil]
        rfl
    · rw [if_neg hset]
      have hu : utilsRecordText (tag, payload) = none := by
        simp only [utilsRecordText]
        rw [if_neg hset]
      rw [List.filterMap_cons_none hu, List.filterMap_nil]
      rfl

/-! ## The claims -/

/-- Claim C2, counterexample: one record with tag 66 whose payload decodes
and cleans to readable text.  Tag 66 is in the claimed text-bearing set
{66, 67, 68, 80}, and `hwp_utils._parse_hwp_records` extracts its text,
but `hwp_parser._parse_body_records` (the record consumer of
`extract_text_from_hwp`) skips it, so its payload does not contribute to
the extracted text there — refuting the claimed "if and only if" for the
walker of hwp_parser. -/
theorem claim2_counterexample :
    parse_body_records (encRecord 66 0 [104, 0, 105, 0]) = [] ∧
    clean_text (utf16leDecodeIgnore [104, 0, 105, 0]) = [104, 105] ∧
    parse_hwp_records (encRecord 66 0 [104, 0, 105, 0]) = [104, 105] := by
  refine ⟨?_, ?_, ?_⟩ <;> decide

/-- Claim C2 (amended): in `hwp_utils._parse_hwp_records` a record's
payload contributes its (non-empty) filtered text iff its tag is one of
{66, 67, 68, 80}; in `hwp_parser._parse_body_records` only tag 67
contributes; records with any other tag are skipped in both. -/
theorem claim2_theorem (tag : Nat) (payload : List Nat)
    (ht : tag < 1024) (hp : payload.length < 4095) :
    parse_body_records (encRecord tag 0 payload)
      = (if tag = 67 then clean_text (utf16leDecodeIgnore payload) else []) ∧
    parse_hwp_records (encRecord tag 0 payload)
      = (if tag = 66 ∨ tag = 67 ∨ tag = 68 ∨ tag = 80
         then pyStrip (recordFilter (utf16leDecodeIgnore payload)) else []) :=
  ⟨parse_body_records_single tag payload ht hp,
    parse_hwp_records_single tag payload ht hp⟩

/-- Claim C2 witness: the amended theorem applied to a concrete tag-67
record holding UTF-16LE "hi". -/
theorem claim2_witness :
    (67 < 1024 ∧ ([104, 0, 105, 0] : List Nat).length < 4095) ∧
    parse_body_records (encRecord 67 0 [104, 0, 105, 0])
      = (if 67 = 67 then clean_text (utf16leDecodeIgnore [104, 0, 105, 0]) else []) :=
  ⟨by decide, (claim2_theorem 67 [104, 0, 105, 0] (by decide) (by decide)).1⟩

/-- Claim C5: a record whose declared size overruns the remaining buffer
stops both walkers with no error and no emitted record for the tail, and
every record parsed before the truncation point is preserved exactly, in
both record output and extracted text. -/
theorem claim5_theorem (sz : Bool) (rs : List (Nat × Nat × List Nat))
    (tag lvl s : Nat) (short : List Nat)
    (hw : ∀ r ∈ rs, wfRec r) (ht : tag < 1024) (hl : lvl < 1024)
    (hs : s < 4095) (hov : short.length < s) :
    walkRecords sz (encRecords rs ++ (recHeader tag lvl s ++ short)) = rs.map recOut ∧
    parse_body_records (encRecords rs ++ (recHeader tag lvl s ++ short))
      = parse_body_records (encRecords rs) ∧
    parse_hwp_records (encRecords rs ++ (recHeader tag lvl s ++ short))
      = parse_hwp_records (encRecords rs) := by
  have key : ∀ sz2 : Bool,
      walkRecords sz2 (encRecords rs ++ (recHeader tag lvl s ++ short))
        = rs.map recOut := by
    intro sz2
    rw [walkRecords_encRecords_append sz2 rs _ hw,
      walkRecords_eq_nil (readRecord_truncated sz2 tag lvl s short ht hl hs hov),
      List.append_nil]
  refine ⟨key sz, ?_, ?_⟩
  · rw [parse_body_records, parse_body_records, key false,
      walkRecords_encRecords false rs hw]
  · rw [parse_hwp_records, parse_hwp_records, key true,
      walkRecords_encRecords true rs hw]

/-- Claim C5 witness: one well-formed record followed by a header whose
declared size 5 exceeds the 3 remaining bytes. -/
theorem claim5_witness :
    ((∀ r ∈ ([(67, 0, [104, 0, 105, 0])] : List (Nat × Nat × List Nat)), wfRec r) ∧
      67 < 1024 ∧ 0 < 1024 ∧ 5 < 4095 ∧ ([1, 2, 3] : List Nat).length < 5) ∧
    walkRecords true (encRecords [(67, 0, [104, 0, 105, 0])]
        ++ (recHeader 67 0 5 ++ [1, 2, 3]))
      = [(67, [104, 0, 105, 0])] :=
  ⟨by decide,
    (claim5_theorem true [(67, 0, [104, 0, 105, 0])] 67 0 5 [1, 2, 3]
      (by decide) (by decide) (by decide) (by decide) (by decide)).1⟩

/-- Claim C6: a header whose 12-bit size field is 0xFFF takes the true
payload size from the following 4 little-endian bytes, consumes them, and
reads that many payload bytes before continuing; and when fewer than 4
bytes remain for the extended size, the walk stops with all prior records
preserved. -/
theorem claim6_theorem (sz : Bool) (rs : List (Nat × Nat × List Nat))
    (tag lvl : Nat) (payload rest : List Nat)
    (hw : ∀ r ∈ rs, wfRec r) (ht : tag < 1024) (hl : lvl < 1024)
    (hp : payload.length < 4294967296) (hpe : payload ≠ []) :
    walkRecords sz (encRecords rs ++ (encExtRecord tag lvl payload ++ rest))
      = rs.map recOut ++ (tag, payload) :: walkRecords sz rest ∧
    (∀ short : List Nat, short.length < 4 →
      walkRecords sz (encRecords rs ++ (recHeader tag lvl 4095 ++ short))
        = rs.map recOut) := by
  constructor
  · rw [walkRecords_encRecords_append sz rs _ hw,
      @walkRecords_cons sz (encExtRecord tag lvl payload ++ rest) tag payload rest
        (by rw [readRecord_encExtRecord sz tag lvl payload rest ht hl hp, if_neg]
            rintro ⟨-, h⟩
            exact hpe h)]
  · intro short hshort
    rw [walkRecords_encRecords_append sz rs _ hw,
      walkRecords_eq_nil (readRecord_extTruncated sz tag lvl short ht hl hshort),
      List.append_nil]

/-- Claim C6 witness: an extended record (size field 0xFFF, true size 4
from the little-endian escape) after a plain record, followed by a
truncated extended header with only 2 bytes left. -/
theorem claim6_witness :
    ((∀ r ∈ ([(67, 0, [104, 0])] : List (Nat × Nat × List Nat)), wfRec r) ∧
      67 < 1024 ∧ 0 < 1024 ∧
      ([104, 0, 105, 0] : List Nat).length < 4294967296 ∧
      ([104, 0, 105, 0] : List Nat) ≠ [] ∧ ([7, 7] : List Nat).length < 4) ∧
    walkRecords true (encRecords [(67, 0, [104, 0])]
        ++ (encExtRecord 67 0 [104, 0, 105, 0] ++ []))
      = [(67, [104, 0])] ++ (67, [104, 0, 105, 0]) :: walkRecords true [] ∧
    walkRecords true (encRecords [(67, 0, [104, 0])]
        ++ (recHeader 67 0 4095 ++ [7, 7]))
      = [(67, [104, 0])] := by
  have h := claim6_theorem true [(67, 0, [104, 0])] 67 0 [104, 0, 105, 0] []
    (by decide) (by decide) (by decide) (by decide) (by decide)
  exact ⟨by decide, h.1, h.2 [7, 7] (by decide)⟩

/-- Claim C7, counterexample: the two bytes of an unpaired high surrogate.
The ignoring decode the source uses drops them silently, the decode the
claim describes would mark them with U+FFFD, and a tag-67 record carrying
exactly this payload contributes no marker (indeed no text at all) to the
extraction. -/
theorem claim7_counterexample :
    utf16leDecodeIgnore [0, 216] = [] ∧
    utf16leDecodeReplace [0, 216] = [65533] ∧
    parse_hwp_records (encRecord 67 0 [0, 216]) = [] ∧
    parse_body_records (encRecord 67 0 [0, 216]) = [] := by
  refine ⟨?_, ?_, ?_, ?_⟩ <;> decide

/-- Claim C7 (amended): both source walkers decode text payloads as UTF-16
little endian with decoding errors ignored: the decode never fails, valid
units pass through, and an invalid unit — dangling at the end or sitting
between valid units — is silently dropped with no replacement marker. -/
theorem claim7_theorem (cs1 : List Nat) (c : Nat) (cs2 : List Nat)
    (h1 : ∀ x ∈ cs1, x < 55296) (hc : c < 55296) (h2 : ∀ x ∈ cs2, x < 55296) :
    utf16leDecodeIgnore (utf16leEnc cs1) = cs1 ∧
    utf16leDecodeIgnore (utf16leEnc cs1 ++ [0, 216]) = cs1 ∧
    utf16leDecodeIgnore (utf16leEnc cs1 ++ (0 :: 216 :: utf16leEnc (c :: cs2)))
      = cs1 ++ c :: cs2 := by
  refine ⟨?_, ?_, ?_⟩
  · have h0 := utf16leDecodeIgnore_enc_append cs1 [] h1
    simpa [show utf16leDecodeIgnore ([] : List Nat) = [] from rfl] using h0
  · have h0 := utf16leDecodeIgnore_enc_append cs1 [0, 216] h1
    simpa [show utf16leDecodeIgnore ([0, 216] : List Nat) = [] from rfl] using h0
  · rw [utf16leDecodeIgnore_enc_append cs1 _ h1,
      utf16leDecodeIgnore_highSkip c cs2 hc h2]

/-- Claim C7 witness: the amended theorem applied to "hi", with a dangling
high surrogate appended and with one wedged between the two letters. -/
theorem claim7_witness :
    ((∀ x ∈ ([104] : List Nat), x < 55296) ∧ 105 < 55296 ∧
      (∀ x ∈ ([] : List Nat), x < 55296)) ∧
    utf16leDecodeIgnore (utf16leEnc [104] ++ [0, 216]) = [104] ∧
    utf16leDecodeIgnore (utf16leEnc [104] ++ (0 :: 216 :: utf16leEnc [105]))
      = [104] ++ [105] := by
  have h := claim7_theorem [104] 105 [] (by decide) (by decide) (by decide)
  exact ⟨by decide, h.2.1, h.2.2⟩

/-- Claim C8, counterexample: `hwp_utils.extract_text_from_hwpx_bytes`
does not skip an entry that is not well-formed XML — it never parses XML
at all.  On an archive with a well-formed entry holding "A" and a
malformed entry `<p>B`, the malformed entry's residual text "B" appears
in the output, so the result differs from the one the claim requires
(only "A"). -/
theorem claim8_counterexample :
    (extract_text_from_hwpx_bytes (fun _ => [])
        [("a.xml", strCodes "<p>A</p>"), ("b.xml", strCodes "<p>B")]).1
      = some [65, 10, 66] ∧
    some ([65, 10, 66] : List Nat) ≠ some [65] := by
  refine ⟨?_, ?_⟩ <;> decide

/-- Claim C8 (amended): `hwp_parser.extract_text_from_hwpx` skips an
`.xml` entry whose XML parse fails, without raising and without altering
the result of the other entries — the two-entry archive yields exactly
what the archive without the malformed entry yields;
`hwp_utils.extract_text_from_hwpx_bytes`, however, never parses XML and
includes a malformed entry's tag-stripped text instead of skipping it. -/
theorem claim8_theorem (px : List Nat → Option (List Nat)) (d1 d2 t : List Nat)
    (h1 : px d1 = some t) (h2 : px d2 = none) :
    extract_text_from_hwpx px [("a.xml", d1), ("b.xml", d2)] = clean_text t ∧
    extract_text_from_hwpx px [("a.xml", d1), ("b.xml", d2)]
      = extract_text_from_hwpx px [("a.xml", d1)] := by
  have ha : hwpxChunk px ("a.xml", d1) = some t := h1
  have hbn : hwpxChunk px ("b.xml", d2) = none := h2
  constructor
  · simp only [extract_text_from_hwpx]
    rw [List.filterMap_cons_some ha, List.filterMap_cons_none hbn,
      List.filterMap_nil]
    rfl
  · simp only [extract_text_from_hwpx]
    rw [List.filterMap_cons_some ha, List.filterMap_cons_none hbn,
      List.filterMap_nil, List.filterMap_cons_some ha, List.filterMap_nil]

/-- Claim C8 witness: a concrete parser that accepts `[0]` (itertext "A")
and rejects `[1]`, applied to the two-entry archive. -/
theorem claim8_witness :
    ((fun d => if d = ([0] : List Nat) then some [65] else none) [0] = some [65] ∧
      (fun d => if d = ([0] : List Nat) then some [65] else none) [1] = none) ∧
    extract_text_from_hwpx (fun d => if d = ([0] : List Nat) then some [65] else none)
        [("a.xml", [0]), ("b.xml", [1])] = clean_text [65] :=
  ⟨⟨by decide, by decide⟩,
    (claim8_theorem (fun d => if d = ([0] : List Nat) then some [65] else none)
      [0] [1] [65] (by decide) (by decide)).1⟩

/-- Claim C9: `convert_to_text` fails exactly when the dispatched opener
cannot open the input at all or the final text (extraction result, plus
the optional table markdown on the HWP path) is empty; whenever that text
is non-empty it is returned together with the detected format, and no
other condition — truncated records, malformed entries, unknown tags —
makes the call raise, since the extractors are total. -/
theorem claim9_theorem (ir px : List Nat → Option (List Nat))
    (inp : ConvertInput) (it : Bool) :
    ((convert_to_text ir px inp it).isOk = true ↔
      (convertOpens inp = true ∧ convertFinalText ir px inp it ≠ [])) ∧
    (convertOpens inp = true → convertFinalText ir px inp it ≠ [] →
      convert_to_text ir px inp it
        = .ok (convertFinalText ir px inp it,
            if convertIsHwpx inp then "HWPX" else "HWP")) := by
  by_cases hx : convertIsHwpx inp = true
  · have hfmt : (if convertIsHwpx inp then "HWPX" else "HWP") = "HWPX" := by
      simp [hx]
    cases hz : inp.zipOpen with
    | none =>
      have hop : convertOpens inp = false := by simp [convertOpens, hx, hz]
      have hcv : convert_to_text ir px inp it = .error .zipOpenFailed := by
        simp [convert_to_text, hx, hz]
      rw [hcv, hop]
      simp [Except.isOk, Except.toBool]
    | some archive =>
      have hop : convertOpens inp = true := by simp [convertOpens, hx, hz]
      have hft : convertFinalText ir px inp it = extract_text_from_hwpx px archive := by
        simp [convertFinalText, hx, hz]
      have hcv : convert_to_text ir px inp it
          = (if extract_text_from_hwpx px archive = [] then .error .emptyResult
             else .ok (extract_text_from_hwpx px archive, "HWPX")) := by
        simp [convert_to_text, hx, hz]
      rw [hop, hft, hcv, hfmt]
      by_cases he : extract_text_from_hwpx px archive = []
      · simp [he, Except.isOk, Except.toBool]
      · simp [he, Except.isOk, Except.toBool]
  · have hx2 : convertIsHwpx inp = false := by
      cases hxx : convertIsHwpx inp
      · rfl
      · exact absurd hxx hx
    have hfmt : (if convertIsHwpx inp then "HWPX" else "HWP") = "HWP" := by
      simp [hx2]
    cases ho : inp.oleOpen with
    | none =>
      have hop : convertOpens inp = false := by simp [convertOpens, hx2, ho]
      have hcv : convert_to_text ir px inp it = .error .oleOpenFailed := by
        simp [convert_to_text, hx2, ho]
      rw [hcv, hop]
      simp [Except.isOk, Except.toBool]
    | some c =>
      have hop : convertOpens inp = true := by simp [convertOpens, hx2, ho]
      have hft : convertFinalText ir px inp it
          = (if it && !inp.tablesMd.isEmpty then
              pyStrip (extract_text_from_hwp ir c
                ++ (if extract_text_from_hwp ir c = [] then []
                    else strCodes "\n\n---\n\n") ++ inp.tablesMd)
            else extract_text_from_hwp ir c) := by
        simp [convertFinalText, hx2, ho]
      have hcv : convert_to_text ir px inp it
          = (if (if it && !inp.tablesMd.isEmpty then
                pyStrip (extract_text_from_hwp ir c
                  ++ (if extract_text_from_hwp ir c = [] then []
                      else strCodes "\n\n---\n\n") ++ inp.tablesMd)
              else extract_text_from_hwp ir c) = []
             then .error .emptyResult
             else .ok ((if it && !inp.tablesMd.isEmpty then
                pyStrip (extract_text_from_hwp ir c
                  ++ (if extract_text_from_hwp ir c = [] then []
                      else strCodes "\n\n---\n\n") ++ inp.tablesMd)
              else extract_text_from_hwp ir c), "HWP")) := by
        simp [convert_to_text, hx2, ho]
      rw [hop, hft, hcv, hfmt]
      generalize (if it && !inp.tablesMd.isEmpty then
          pyStrip (extract_text_from_hwp ir c
            ++ (if extract_text_from_hwp ir c = [] then []
                else strCodes "\n\n---\n\n") ++ inp.tablesMd)
        else extract_text_from_hwp ir c) = T0
      by_cases he : T0 = []
      · simp [he, Except.isOk, Except.toBool]
      · simp [he, Except.isOk, Except.toBool]

/-- Claim C9 witness: a ZIP-signature input whose archive holds one XML
entry parsing to "hi"; the conversion succeeds with that text and the
HWPX format tag. -/
theorem claim9_witness :
    (convertOpens
        ⟨[80, 75], none, none, some [("content.xml", [1])], []⟩ = true ∧
      convertFinalText (fun _ => none)
        (fun d => if d = ([1] : List Nat) then some [104, 105] else none)
        ⟨[80, 75], none, none, some [("content.xml", [1])], []⟩ true ≠ []) ∧
    convert_to_text (fun _ => none)
        (fun d => if d = ([1] : List Nat) then some [104, 105] else none)
        ⟨[80, 75], none, none, some [("content.xml", [1])], []⟩ true
      = .ok (convertFinalText (fun _ => none)
          (fun d => if d = ([1] : List Nat) then some [104, 105] else none)
          ⟨[80, 75], none, none, some [("content.xml", [1])], []⟩ true,
        if convertIsHwpx ⟨[80, 75], none, none, some [("content.xml", [1])], []⟩
          then "HWPX" else "HWP") :=
  ⟨⟨by decide, by decide⟩,
    (claim9_theorem (fun _ => none)
      (fun d => if d = ([1] : List Nat) then some [104, 105] else none)
      ⟨[80, 75], none, none, some [("content.xml", [1])], []⟩ true).2
      (by decide) (by decide)⟩

/-- Claim C10: the hwp_utils walker stops at the first record whose
resolved size is zero — whether declared plainly or through the 0xFFF
escape — so no later record contributes, even a well-formed one; the
records before it are kept.  (The hwp_parser walker, by contrast, emits
the empty record and keeps walking.) -/
theorem claim10_theorem (rs : List (Nat × Nat × List Nat))
    (tag lvl : Nat) (post : List Nat)
    (hw : ∀ r ∈ rs, wfRec r) (ht : tag < 1024) (hl : lvl < 1024) :
    walkRecords true (encRecords rs ++ (recHeader tag lvl 0 ++ post)) = rs.map recOut ∧
    walkRecords true (encRecords rs ++ (recHeader tag lvl 4095 ++ (le4enc 0 ++ post)))
      = rs.map recOut ∧
    parse_hwp_records (encRecords rs ++ (recHeader tag lvl 0 ++ post))
      = parse_hwp_records (encRecords rs) ∧
    walkRecords false (recHeader tag lvl 0 ++ post)
      = (tag, []) :: walkRecords false post := by
  have key : walkRecords true (encRecords rs ++ (recHeader tag lvl 0 ++ post))
      = rs.map recOut := by
    rw [walkRecords_encRecords_append true rs _ hw,
      walkRecords_eq_nil (readRecord_zeroSize tag lvl post ht hl), List.append_nil]
  refine ⟨key, ?_, ?_, ?_⟩
  · rw [walkRecords_encRecords_append true rs _ hw,
      walkRecords_eq_nil (readRecord_extZeroSize tag lvl post ht hl),
      List.append_nil]
  · rw [parse_hwp_records, parse_hwp_records, key,
      walkRecords_encRecords true rs hw]
  · have e : recHeader tag lvl 0 ++ post = encRecord tag lvl [] ++ post := by
      simp [encRecord]
    rw [e, @walkRecords_cons false (encRecord tag lvl [] ++ post) tag [] post
      (by rw [readRecord_encRecord false tag lvl [] post ht hl (by simp), if_neg]
          rintro ⟨h, -⟩
          exact Bool.false_ne_true h)]

/-- Claim C1, counterexample: the source yields the bytes unchanged FIRST,
not last.  With an inflater that succeeds and decompresses to a record
reading "A", on a stream whose raw bytes already parse as a record reading
"B", the code's candidate order selects the pass-through text "B", while
the claimed order (raw deflate, zlib, pass-through) would select "A". -/
theorem claim1_counterexample :
    iter_candidate_payloads (fun _ => some [1]) (fun _ => none) [2] = [[2], [1]] ∧
    iter_candidate_payloads_claimed (fun _ => some [1]) (fun _ => none) [2]
      = [[1], [2]] ∧
    oleStreamText (fun _ => some (encRecord 67 0 [65, 0])) (fun _ => none)
        (encRecord 67 0 [66, 0]) = some [66] ∧
    ((iter_candidate_payloads_claimed (fun _ => some (encRecord 67 0 [65, 0]))
          (fun _ => none) (encRecord 67 0 [66, 0])).map parse_hwp_records).find?
        (fun t => !t.isEmpty) = some [65] ∧
    ([66] : List Nat) ≠ [65] := by
  refine ⟨?_, ?_, ?_, ?_, ?_⟩ <;> decide

/-- Claim C1 (amended): `hwp_utils._iter_candidate_payloads` attempts, in
this order, (c) the bytes unchanged, (a) raw deflate, (b) zlib-wrapped
deflate, skipping a failing decompression, and the caller keeps the first
candidate whose parse yields non-empty text — so when the raw bytes
already parse, the inflaters are irrelevant; the header compression flag
plays no role on this path.  In `hwp_parser.extract_text_from_hwp`, by
contrast, the flag IS a gate: when it is clear no decompression is
attempted at all (the result does not depend on the inflater). -/
theorem claim1_theorem (ir iz ir2 ir3 : List Nat → Option (List Nat))
    (raw : List Nat) (c : OleContainer) :
    (iter_candidate_payloads ir iz raw).head? = some raw ∧
    (parse_hwp_records raw ≠ [] →
      oleStreamText ir iz raw = some (parse_hwp_records raw)) ∧
    (detect_body_compressed ((openstreamStr c "FileHeader").getD []) = false →
      extract_text_from_hwp ir2 c = extract_text_from_hwp ir3 c) := by
  refine ⟨rfl, ?_, ?_⟩
  · intro h
    rw [oleStreamText, iter_candidate_payloads, List.map_cons]
    apply List.find?_cons_of_pos
    cases hl : parse_hwp_records raw with
    | nil => exact absurd hl h
    | cons a t => simp
  · intro hflag
    have hsp : hwpSectionPart ir2 c false = hwpSectionPart ir3 c false := by
      funext sn
      simp only [hwpSectionPart]
      cases openstreamStr c sn with
      | none => rfl
      | some raw => simp
    simp only [extract_text_from_hwp, hflag, hsp]

/-- Claim C1 witness: the pass-through selection and the flag gate on a
concrete stream ("H") and a flag-clear container. -/
theorem claim1_witness :
    parse_hwp_records (encRecord 67 0 [72, 0]) ≠ [] ∧
    oleStreamText (fun _ => none) (fun _ => none) (encRecord 67 0 [72, 0])
      = some (parse_hwp_records (encRecord 67 0 [72, 0])) :=
  ⟨by decide,
    (claim1_theorem (fun _ => none) (fun _ => none) (fun _ => none) (fun _ => none)
      (encRecord 67 0 [72, 0]) ⟨[]⟩).2.1 (by decide)⟩

/-- The container of claim C3: a FileHeader with the compression flag
clear and a single BodyText/Section0 stream holding exactly one tag-67
record with the given payload. -/
def singleSectionContainer (payload : List Nat) : OleContainer :=
  ⟨[(["FileHeader"], List.replicate 37 0),
    (["BodyText", "Section0"], encRecord 67 0 payload)]⟩

/-- Claim C3, counterexample: on a container holding exactly one
BodyText/Section0 stream with one tag-67 record whose payload decodes to
"hello", `hwp_parser.extract_text_from_hwp` returns the text prefixed
with a `[BodyText/Section0]` stream-name annotation line — not exactly
the decoded, normalized payload text. -/
theorem claim3_counterexample :
    extract_text_from_hwp (fun _ => none)
        (singleSectionContainer [104, 0, 101, 0, 108, 0, 108, 0, 111, 0])
      = strCodes "[BodyText/Section0]\nhello" ∧
    clean_text (utf16leDecodeIgnore [104, 0, 101, 0, 108, 0, 108, 0, 111, 0])
      = strCodes "hello" ∧
    strCodes "[BodyText/Section0]\nhello" ≠ strCodes "hello" := by
  refine ⟨?_, ?_, ?_⟩ <;> decide

/-- Claim C3 (amended): for a container holding exactly one
BodyText/Section0 stream with one tag-67 record,
`hwp_utils.extract_text_from_hwp_ole` returns exactly the decoded,
normalized payload text, nothing more and nothing less; but
`hwp_parser.extract_text_from_hwp` returns that text prefixed with a
`[BodyText/Section0]` annotation line. -/
theorem claim3_theorem (ir iz ir2 : List Nat → Option (List Nat))
    (payload : List Nat) (hp : payload.length < 4095)
    (hb : clean_text (utf16leDecodeIgnore payload) ≠ [])
    (hu : pyStrip (recordFilter (utf16leDecodeIgnore payload)) ≠ []) :
    extract_text_from_hwp_ole ir iz (singleSectionContainer payload)
      = (some (pyStrip (recordFilter (utf16leDecodeIgnore payload))), "OK[OLE]") ∧
    extract_text_from_hwp ir2 (singleSectionContainer payload)
      = clean_text (strCodes "[BodyText/Section0]"
          ++ 10 :: clean_text (utf16leDecodeIgnore payload)) := by
  have hparse : parse_hwp_records (encRecord 67 0 payload)
      = pyStrip (recordFilter (utf16leDecodeIgnore payload)) := by
    have h := parse_hwp_records_single 67 payload (by omega) hp
    rwa [if_pos (Or.inr (Or.inl rfl))] at h
  have hbody : parse_body_records (encRecord 67 0 payload)
      = clean_text (utf16leDecodeIgnore payload) := by
    have h := parse_body_records_single 67 payload (by omega) hp
    rwa [if_pos rfl] at h
  have hune : parse_hwp_records (encRecord 67 0 payload) ≠ [] := by
    rw [hparse]; exact hu
  have hbne : parse_body_records (encRecord 67 0 payload) ≠ [] := by
    rw [hbody]; exact hb
  constructor
  · have hsel : oleStreamText ir iz (encRecord 67 0 payload)
        = some (parse_hwp_records (encRecord 67 0 payload)) := by
      rw [oleStreamText, iter_candidate_payloads, List.map_cons]
      apply List.find?_cons_of_pos
      cases hl : parse_hwp_records (encRecord 67 0 payload) with
      | nil => exact absurd hl hune
      | cons a t => simp
    have hob : oleBodyText ir iz (singleSectionContainer payload)
        ["BodyText", "Section0"]
        = some (parse_hwp_records (encRecord 67 0 payload)) := by
      show oleStreamText ir iz (encRecord 67 0 payload) = _
      exact hsel
    simp only [extract_text_from_hwp_ole]
    rw [show listdir (singleSectionContainer payload)
        = [["FileHeader"], ["BodyText", "Section0"]] from rfl,
      List.filterMap_cons_none
        (show oleBodyText ir iz (singleSectionContainer payload) ["FileHeader"]
          = none from rfl),
      List.filterMap_cons_some hob, List.filterMap_nil]
    have hmerge : pyStrip (joinSep [10] [parse_hwp_records (encRecord 67 0 payload)])
        = parse_hwp_records (encRecord 67 0 payload) := by
      show pyStrip (parse_hwp_records (encRecord 67 0 payload)) = _
      rw [parse_hwp_records]
      exact pyStrip_idem _
    rw [hmerge, if_neg hune, hparse]
  · have hsp : hwpSectionPart ir2 (singleSectionContainer payload) false
        "BodyText/Section0"
        = some (strCodes "[BodyText/Section0]"
            ++ 10 :: parse_body_records (encRecord 67 0 payload)) := by
      show (if parse_body_records (encRecord 67 0 payload) = [] then none
          else some (strCodes ("[" ++ "BodyText/Section0" ++ "]")
              ++ 10 :: parse_body_records (encRecord 67 0 payload)))
        = some (strCodes "[BodyText/Section0]"
            ++ 10 :: parse_body_records (encRecord 67 0 payload))
      rw [if_neg hbne]
      rfl
    simp only [extract_text_from_hwp]
    rw [show detect_body_compressed
        ((openstreamStr (singleSectionContainer payload) "FileHeader").getD [])
        = false from rfl,
      show list_body_sections (listdir (singleSectionContainer payload))
        = ["BodyText/Section0"] from rfl,
      List.filterMap_cons_some hsp, List.filterMap_nil,
      show joinSep [10, 10] [strCodes "[BodyText/Section0]"
          ++ 10 :: parse_body_records (encRecord 67 0 payload)]
        = strCodes "[BodyText/Section0]"
          ++ 10 :: parse_body_records (encRecord 67 0 payload) from rfl,
      hbody]

/-- Claim C3 witness: the amended theorem applied to the UTF-16LE payload
of "hello". -/
theorem claim3_witness :
    (([104, 0, 101, 0, 108, 0, 108, 0, 111, 0] : List Nat).length < 4095 ∧
      clean_text (utf16leDecodeIgnore [104, 0, 101, 0, 108, 0, 108, 0, 111, 0]) ≠ [] ∧
      pyStrip (recordFilter
        (utf16leDecodeIgnore [104, 0, 101, 0, 108, 0, 108, 0, 111, 0])) ≠ []) ∧
    extract_text_from_hwp_ole (fun _ => none) (fun _ => none)
        (singleSectionContainer [104, 0, 101, 0, 108, 0, 108, 0, 111, 0])
      = (some (pyStrip (recordFilter
          (utf16leDecodeIgnore [104, 0, 101, 0, 108, 0, 108, 0, 111, 0]))),
        "OK[OLE]") :=
  ⟨by decide,
    (claim3_theorem (fun _ => none) (fun _ => none) (fun _ => none)
      [104, 0, 101, 0, 108, 0, 108, 0, 111, 0]
      (by decide) (by decide) (by decide)).1⟩

/-- Claim C4, counterexample: `hwp_utils.extract_text_from_hwp_ole`
processes BodyText streams in directory-listing order, not numeric
section order.  With sections listed as Section2 ("B"), Section10 ("C"),
Section1 ("A") it returns "B\nC\nA", not the numeric-order "A\nB\nC". -/
theorem claim4_counterexample :
    (extract_text_from_hwp_ole (fun _ => none) (fun _ => none)
        ⟨[(["BodyText", "Section2"], encRecord 67 0 [66, 0]),
          (["BodyText", "Section10"], encRecord 67 0 [67, 0]),
          (["BodyText", "Section1"], encRecord 67 0 [65, 0])]⟩).1
      = some [66, 10, 67, 10, 65] ∧
    some ([66, 10, 67, 10, 65] : List Nat) ≠ some [65, 10, 66, 10, 67] := by
  refine ⟨?_, ?_⟩ <;> decide

/-- Claim C4 (amended): `hwp_parser._list_body_sections` returns the
sections sorted ascending by the numeric value of the Section suffix
(never lexical or listing order), skipping non-numeric suffixes without
error; `hwp_utils.extract_text_from_hwp_ole`, however, concatenates
BodyText streams in directory-listing order. -/
theorem claim4_theorem (entries : List (List String)) :
    List.Sorted (· ≤ ·) ((body_section_ids entries).insertionSort (· ≤ ·)) ∧
    ((body_section_ids entries).insertionSort (· ≤ ·)).Perm
      (body_section_ids entries) ∧
    list_body_sections entries
      = ((body_section_ids entries).insertionSort (· ≤ ·)).map sectionName ∧
    list_body_sections [["BodyText", "Section2"], ["BodyText", "Section10"],
        ["BodyText", "Section1"], ["BodyText", "SectionX"]]
      = ["BodyText/Section1", "BodyText/Section2", "BodyText/Section10"] ∧
    (extract_text_from_hwp_ole (fun _ => none) (fun _ => none)
        ⟨[(["BodyText", "Section3"], encRecord 67 0 [68, 0]),
          (["BodyText", "Section20"], encRecord 67 0 [69, 0]),
          (["BodyText", "Section5"], encRecord 67 0 [70, 0])]⟩).1
      = some [68, 10, 69, 10, 70] :=
  ⟨List.sorted_insertionSort _ _, List.perm_insertionSort _ _, rfl,
    by decide, by decide⟩

/-- Claim C10 witness: a good record, then a zero-size record, then
another perfectly well-formed record that is nevertheless never reached
by the hwp_utils walker. -/
theorem claim10_witness :
    ((∀ r ∈ ([(67, 0, [104, 0])] : List (Nat × Nat × List Nat)), wfRec r) ∧
      80 < 1024 ∧ 0 < 1024) ∧
    walkRecords true (encRecords [(67, 0, [104, 0])]
        ++ (recHeader 80 0 0 ++ encRecord 67 0 [121, 0]))
      = [(67, [104, 0])] ∧
    parse_hwp_records (encRecords [(67, 0, [104, 0])]
        ++ (recHeader 80 0 0 ++ encRecord 67 0 [121, 0]))
      = parse_hwp_records (encRecords [(67, 0, [104, 0])]) := by
  have h := claim10_theorem [(67, 0, [104, 0])] 80 0 (encRecord 67 0 [121, 0])
    (by decide) (by decide) (by decide)
  exact ⟨by decide, h.1, h.2.2.1⟩

end Jodal
